import Mathlib

/-!
Verification of the PII detection and masking engine in
`plugins_rust/src/pii_filter` (config.rs, patterns.rs, detector.rs,
masking.rs).

Texts are modelled as `List Char`; span offsets are character positions,
which coincide with the source's byte offsets on ASCII input (every
concrete input in this development is ASCII).  Inside `maskPartial` the
source performs byte-level indexing on the matched value, so there the
model tracks UTF-8 byte lengths and byte-boundary slicing explicitly.

The `regex` crate is external to the repository.  Its documented
leftmost-first match semantics, for exactly the constructs appearing in
the built-in pattern literals of patterns.rs (character classes, ordered
alternation, greedy bounded/unbounded class repetition, word boundaries),
is modelled by the small engine below, and each built-in pattern literal
is translated to that engine.  The iteration logic of
`Regex::captures_iter` (advance past each match, bump one position after
an empty match, never yield an empty match abutting the previous match
end) is modelled by `matchesAux`.
-/

set_option maxRecDepth 10000

namespace PII

/-- PII categories, from config.rs `PIIType`. -/
inductive PIIType where
  | Ssn
  | CreditCard
  | Email
  | Phone
  | IpAddress
  | DateOfBirth
  | Passport
  | DriverLicense
  | BankAccount
  | MedicalRecord
  | AwsKey
  | ApiKey
  | Custom
deriving DecidableEq, Repr

/-- String identifier of a `PIIType`, from config.rs `PIIType::as_str`. -/
def PIIType.as_str : PIIType → String
  | .Ssn => "ssn"
  | .CreditCard => "credit_card"
  | .Email => "email"
  | .Phone => "phone"
  | .IpAddress => "ip_address"
  | .DateOfBirth => "date_of_birth"
  | .Passport => "passport"
  | .DriverLicense => "driver_license"
  | .BankAccount => "bank_account"
  | .MedicalRecord => "medical_record"
  | .AwsKey => "aws_key"
  | .ApiKey => "api_key"
  | .Custom => "custom"

/-- Masking strategies, from config.rs `MaskingStrategy`. -/
inductive MaskingStrategy where
  | Redact
  | Partial
  | Hash
  | Tokenize
  | Remove
deriving DecidableEq, Repr

/-- A caller-supplied custom pattern, from config.rs `CustomPattern`. -/
structure CustomPattern where
  pattern : String
  description : String
  mask_strategy : MaskingStrategy
  enabled : Bool
deriving DecidableEq, Repr

/-- Engine configuration, from config.rs `PIIConfig`. -/
structure PIIConfig where
  detect_ssn : Bool
  detect_credit_card : Bool
  detect_email : Bool
  detect_phone : Bool
  detect_ip_address : Bool
  detect_date_of_birth : Bool
  detect_passport : Bool
  detect_driver_license : Bool
  detect_bank_account : Bool
  detect_medical_record : Bool
  detect_aws_keys : Bool
  detect_api_keys : Bool
  default_mask_strategy : MaskingStrategy
  redaction_text : String
  block_on_detection : Bool
  log_detections : Bool
  include_detection_details : Bool
  custom_patterns : List CustomPattern
  whitelist_patterns : List String
deriving DecidableEq, Repr

/-- The `Default` instance of `PIIConfig` from config.rs: every category
enabled, redact with `[REDACTED]`, no custom or whitelist patterns. -/
def PIIConfig.default : PIIConfig where
  detect_ssn := true
  detect_credit_card := true
  detect_email := true
  detect_phone := true
  detect_ip_address := true
  detect_date_of_birth := true
  detect_passport := true
  detect_driver_license := true
  detect_bank_account := true
  detect_medical_record := true
  detect_aws_keys := true
  detect_api_keys := true
  default_mask_strategy := .Redact
  redaction_text := "[REDACTED]"
  block_on_detection := false
  log_detections := true
  include_detection_details := true
  custom_patterns := []
  whitelist_patterns := []

/-! ## Model of the external `regex` crate (leftmost-first matching) -/

/-- A matcher state: current position, previous character (for word
boundaries), remaining input. -/
structure MState where
  pos : Nat
  prev : Option Char
  rest : List Char
deriving DecidableEq, Repr

/-- Regex abstract syntax sufficient for the built-in pattern literals:
epsilon, single-character classes, sequencing, ordered alternation, word
boundary, and greedy repetition of a character class. -/
inductive RE where
  | eps
  | cls (p : Char → Bool)
  | seq (a b : RE)
  | alt (a b : RE)
  | wordB
  | repCls (p : Char → Bool) (lo : Nat) (hi : Option Nat)

/-- Word characters for `\b` (ASCII portion of the crate's `\w`). -/
def isWordChar (c : Char) : Bool := c.isAlphanum || c = '_'

/-- Whether the state sits on a `\b` word boundary. -/
def atBoundary (st : MState) : Bool :=
  (match st.prev with | none => false | some c => isWordChar c)
    != (match st.rest with | [] => false | c :: _ => isWordChar c)

/-- States reachable by greedily consuming characters of class `p`, in
ascending consumption order (the head consumed nothing), capped by the
optional upper repetition bound. -/
def clsChain (p : Char → Bool) : Nat → Option Char → List Char → Option Nat → List MState
  | pos, prev, rest, some 0 => [⟨pos, prev, rest⟩]
  | pos, prev, [], _ => [⟨pos, prev, []⟩]
  | pos, prev, c :: rs, cap =>
      if p c then
        ⟨pos, prev, c :: rs⟩ :: clsChain p (pos + 1) (some c) rs (cap.map (fun n => n - 1))
      else [⟨pos, prev, c :: rs⟩]

/-- All end states of a match of `re` starting at `st`, in the crate's
leftmost-first backtracking preference order (first element preferred). -/
def runRE : RE → MState → List MState
  | .eps, st => [st]
  | .cls p, st =>
      match st.rest with
      | [] => []
      | c :: rs => if p c then [⟨st.pos + 1, some c, rs⟩] else []
  | .seq a b, st => (runRE a st).flatMap (fun st2 => runRE b st2)
  | .alt a b, st => runRE a st ++ runRE b st
  | .wordB, st => if atBoundary st then [st] else []
  | .repCls p lo hi, st => ((clsChain p st.pos st.prev st.rest hi).drop lo).reverse

/-- Leftmost match search: the first start position at or after the given
state where `re` matches, with the preferred end state. -/
def findFromAux (re : RE) : Nat → Option Char → List Char → Option (Nat × MState)
  | pos, prev, [] =>
      match (runRE re ⟨pos, prev, []⟩).head? with
      | some est => some (pos, est)
      | none => none
  | pos, prev, c :: rs =>
      match (runRE re ⟨pos, prev, c :: rs⟩).head? with
      | some est => some (pos, est)
      | none => findFromAux re (pos + 1) (some c) rs

/-- Successive non-overlapping matches, modelling the iteration of
`regex::Matches` (and `captures_iter`): resume at each match end, step one
character past an empty match, and skip an empty match whose end equals
the previous match end. -/
def matchesAux (re : RE) : Nat → MState → Option Nat → List (Nat × Nat)
  | 0, _, _ => []
  | fuel + 1, st, lastMatch =>
      match findFromAux re st.pos st.prev st.rest with
      | none => []
      | some (s, est) =>
          if est.pos = s then
            match est.rest with
            | [] => if lastMatch = some est.pos then [] else [(s, est.pos)]
            | c :: rs =>
                if lastMatch = some est.pos then
                  matchesAux re fuel ⟨est.pos + 1, some c, rs⟩ lastMatch
                else (s, est.pos) :: matchesAux re fuel ⟨est.pos + 1, some c, rs⟩ (some est.pos)
          else (s, est.pos) :: matchesAux re fuel est (some est.pos)

/-- All matches of `re` in `t` as (start, end) offset pairs. -/
def findAll (re : RE) (t : List Char) : List (Nat × Nat) :=
  matchesAux re (t.length + 2) ⟨0, none, t⟩ none

/-- A compiled regular expression is modelled by its match enumeration
function. -/
def Matcher : Type := List Char → List (Nat × Nat)

/-- The matcher of a translated pattern literal. -/
def runRegex (re : RE) : Matcher := fun t => findAll re t

/-! ### Helper constructors for pattern translation (all patterns are
compiled case-insensitively in compile_patterns, so literal characters
compare by lower case). -/

/-- Case-insensitive literal character. -/
def chc (c : Char) : RE := .cls (fun x => x.toLower = c.toLower)

/-- Sequence a list of regexes. -/
def seqs (l : List RE) : RE := l.foldr .seq .eps

/-- Case-insensitive literal string. -/
def strRE (s : String) : RE := seqs (s.toList.map chc)

/-- Greedy optional. -/
def optRE (r : RE) : RE := .alt r .eps

def digitC : Char → Bool := Char.isDigit

def alphaC : Char → Bool := Char.isAlpha

def alnumC (c : Char) : Bool := c.isAlpha || c.isDigit

/-- The crate's `\s` (ASCII portion). -/
def wsC (c : Char) : Bool :=
  c = ' ' || c = '\t' || c = '\n' || c = '\r' || c = '\x0b' || c = '\x0c'

/-! ### Built-in pattern literals of patterns.rs, translated -/

/-- `\b\d{3}-\d{2}-\d{4}\b|\b\d{9}\b` (SSN). -/
def ssnRE : RE :=
  .alt
    (seqs [.wordB, .repCls digitC 3 (some 3), chc '-', .repCls digitC 2 (some 2),
      chc '-', .repCls digitC 4 (some 4), .wordB])
    (seqs [.wordB, .repCls digitC 9 (some 9), .wordB])

/-- `\b(?:\d{4}[-\s]?){3}\d{4}\b` (credit card). -/
def creditCardRE : RE :=
  seqs [.wordB,
    .repCls digitC 4 (some 4), optRE (.cls (fun c => c = '-' || wsC c)),
    .repCls digitC 4 (some 4), optRE (.cls (fun c => c = '-' || wsC c)),
    .repCls digitC 4 (some 4), optRE (.cls (fun c => c = '-' || wsC c)),
    .repCls digitC 4 (some 4), .wordB]

/-- `\b[A-Za-z0-9._%+-]+@[A-Za-z0-9.-]+\.[A-Z|a-z]{2,}\b` (email). -/
def emailRE : RE :=
  seqs [.wordB,
    .repCls (fun c => alnumC c || c = '.' || c = '_' || c = '%' || c = '+' || c = '-') 1 none,
    chc '@',
    .repCls (fun c => alnumC c || c = '.' || c = '-') 1 none,
    chc '.',
    .repCls (fun c => c.isAlpha || c = '|') 2 none,
    .wordB]

/-- `\b(?:\+?1[-.\s]?)?\(?\d{3}\)?[-.\s]?\d{3}[-.\s]?\d{4}\b` (US phone). -/
def phoneUsRE : RE :=
  seqs [.wordB,
    optRE (seqs [optRE (chc '+'), chc '1', optRE (.cls (fun c => c = '-' || c = '.' || wsC c))]),
    optRE (chc '('),
    .repCls digitC 3 (some 3),
    optRE (chc ')'),
    optRE (.cls (fun c => c = '-' || c = '.' || wsC c)),
    .repCls digitC 3 (some 3),
    optRE (.cls (fun c => c = '-' || c = '.' || wsC c)),
    .repCls digitC 4 (some 4),
    .wordB]

/-- `\b\+[1-9]\d{9,14}\b` (international phone). -/
def phoneIntlRE : RE :=
  seqs [.wordB, chc '+', .cls (fun c => '1' ≤ c && c ≤ '9'),
    .repCls digitC 9 (some 14), .wordB]

/-- `25[0-5]|2[0-4][0-9]|[01]?[0-9][0-9]?` (one IPv4 octet, ordered). -/
def ipv4Octet : RE :=
  .alt (seqs [chc '2', chc '5', .cls (fun c => '0' ≤ c && c ≤ '5')])
    (.alt (seqs [chc '2', .cls (fun c => '0' ≤ c && c ≤ '4'), .cls digitC])
      (seqs [optRE (.cls (fun c => c = '0' || c = '1')), .cls digitC, optRE (.cls digitC)]))

/-- `\b(?:(?:25[0-5]|2[0-4][0-9]|[01]?[0-9][0-9]?)\.){3}(?:...)\b` (IPv4). -/
def ipv4RE : RE :=
  seqs [.wordB, ipv4Octet, chc '.', ipv4Octet, chc '.', ipv4Octet, chc '.', ipv4Octet, .wordB]

def hexC (c : Char) : Bool := c.isDigit || ('a' ≤ c.toLower && c.toLower ≤ 'f')

/-- `\b(?:[A-Fa-f0-9]{1,4}:){7}[A-Fa-f0-9]{1,4}\b` (IPv6). -/
def ipv6RE : RE :=
  seqs [.wordB,
    .repCls hexC 1 (some 4), chc ':', .repCls hexC 1 (some 4), chc ':',
    .repCls hexC 1 (some 4), chc ':', .repCls hexC 1 (some 4), chc ':',
    .repCls hexC 1 (some 4), chc ':', .repCls hexC 1 (some 4), chc ':',
    .repCls hexC 1 (some 4), chc ':', .repCls hexC 1 (some 4), .wordB]

/-- `\b(?:DOB|Date of Birth|Born|Birthday)[:\s]+\d{1,2}[dash-or-slash]\d{1,2}[dash-or-slash]\d{2,4}\b`. -/
def dobLabelRE : RE :=
  seqs [.wordB,
    .alt (strRE "DOB") (.alt (strRE "Date of Birth") (.alt (strRE "Born") (strRE "Birthday"))),
    .repCls (fun c => c = ':' || wsC c) 1 none,
    .repCls digitC 1 (some 2), .cls (fun c => c = '-' || c = '/'),
    .repCls digitC 1 (some 2), .cls (fun c => c = '-' || c = '/'),
    .repCls digitC 2 (some 4), .wordB]

/-- `\b(?:0[1-9]|1[0-2])[dash-or-slash](?:0[1-9]|[12]\d|3[01])[dash-or-slash](?:19|20)\d{2}\b`. -/
def dobDateRE : RE :=
  seqs [.wordB,
    .alt (seqs [chc '0', .cls (fun c => '1' ≤ c && c ≤ '9')])
      (seqs [chc '1', .cls (fun c => '0' ≤ c && c ≤ '2')]),
    .cls (fun c => c = '-' || c = '/'),
    .alt (seqs [chc '0', .cls (fun c => '1' ≤ c && c ≤ '9')])
      (.alt (seqs [.cls (fun c => c = '1' || c = '2'), .cls digitC])
        (seqs [chc '3', .cls (fun c => c = '0' || c = '1')])),
    .cls (fun c => c = '-' || c = '/'),
    .alt (seqs [chc '1', chc '9']) (seqs [chc '2', chc '0']),
    .repCls digitC 2 (some 2), .wordB]

/-- `\b[A-Z]{1,2}\d{6,9}\b` (passport; case-insensitive). -/
def passportRE : RE :=
  seqs [.wordB, .repCls alphaC 1 (some 2), .repCls digitC 6 (some 9), .wordB]

/-- `\b(?:DL|License|Driver'?s? License)[#:\s]+[A-Z0-9]{5,20}\b`. -/
def dlRE : RE :=
  seqs [.wordB,
    .alt (strRE "DL")
      (.alt (strRE "License")
        (seqs [strRE "Driver", optRE (chc (Char.ofNat 39)), optRE (chc 's'),
          chc ' ', strRE "License"])),
    .repCls (fun c => c = '#' || c = ':' || wsC c) 1 none,
    .repCls alnumC 5 (some 20), .wordB]

/-- `\b\d{8,17}\b` (bank account number). -/
def bankRE : RE := seqs [.wordB, .repCls digitC 8 (some 17), .wordB]

/-- `\b[A-Z]{2}\d{2}[A-Z0-9]{4}\d{7}(?:\d{3})?\b` (IBAN). -/
def ibanRE : RE :=
  seqs [.wordB, .repCls alphaC 2 (some 2), .repCls digitC 2 (some 2),
    .repCls alnumC 4 (some 4), .repCls digitC 7 (some 7),
    optRE (.repCls digitC 3 (some 3)), .wordB]

/-- `\b(?:MRN|Medical Record)[#:\s]+[A-Z0-9]{6,12}\b`. -/
def mrnRE : RE :=
  seqs [.wordB, .alt (strRE "MRN") (strRE "Medical Record"),
    .repCls (fun c => c = '#' || c = ':' || wsC c) 1 none,
    .repCls alnumC 6 (some 12), .wordB]

/-- `\bAKIA[0-9A-Z]{16}\b` (AWS access key id; case-insensitive). -/
def awsAkiaRE : RE :=
  seqs [.wordB, strRE "AKIA", .repCls alnumC 16 (some 16), .wordB]

/-- `\b[A-Za-z0-9/+=]{40}\b` (AWS secret access key). -/
def awsSecretRE : RE :=
  seqs [.wordB,
    .repCls (fun c => alnumC c || c = '/' || c = '+' || c = '=') 40 (some 40), .wordB]

/-- `\b(?:api[_-]?key|apikey|api_token|access[_-]?token)[:\s]+['"]?[A-Za-z0-9\-_]{20,}['"]?\b`. -/
def apiKeyRE : RE :=
  seqs [.wordB,
    .alt (seqs [strRE "api", optRE (.cls (fun c => c = '_' || c = '-')), strRE "key"])
      (.alt (strRE "apikey")
        (.alt (strRE "api_token")
          (seqs [strRE "access", optRE (.cls (fun c => c = '_' || c = '-')), strRE "token"]))),
    .repCls (fun c => c = ':' || wsC c) 1 none,
    optRE (.cls (fun c => c = Char.ofNat 39 || c = '"')),
    .repCls (fun c => alnumC c || c = '-' || c = '_') 20 none,
    optRE (.cls (fun c => c = Char.ofNat 39 || c = '"')),
    .wordB]

end PII

namespace PII

/-! ## Pattern tables and compilation (patterns.rs) -/

/-- One entry of a built-in pattern table: the pattern literal, its
compiled matcher (the static literals of patterns.rs always compile, so
the model carries the translated matcher directly), description, and
default masking strategy.  Mirrors `PatternDef` plus compilation. -/
structure PatternDef where
  pattern : String
  regex : Matcher
  description : String
  mask_strategy : MaskingStrategy

def SSN_PATTERNS : List PatternDef :=
  [⟨"\\b\\d\x7b3\x7d-\\d\x7b2\x7d-\\d\x7b4\x7d\\b|\\b\\d\x7b9\x7d\\b",
    runRegex ssnRE, "US Social Security Number", .Partial⟩]

def CREDIT_CARD_PATTERNS : List PatternDef :=
  [⟨"\\b(?:\\d\x7b4\x7d[-\\s]?)\x7b3\x7d\\d\x7b4\x7d\\b",
    runRegex creditCardRE, "Credit card number", .Partial⟩]

def EMAIL_PATTERNS : List PatternDef :=
  [⟨"\\b[A-Za-z0-9._%+-]+@[A-Za-z0-9.-]+\\.[A-Z|a-z]\x7b2,\x7d\\b",
    runRegex emailRE, "Email address", .Partial⟩]

def PHONE_PATTERNS : List PatternDef :=
  [⟨"\\b(?:\\+?1[-.\\s]?)?\\(?\\d\x7b3\x7d\\)?[-.\\s]?\\d\x7b3\x7d[-.\\s]?\\d\x7b4\x7d\\b",
    runRegex phoneUsRE, "US phone number", .Partial⟩,
   ⟨"\\b\\+[1-9]\\d\x7b9,14\x7d\\b",
    runRegex phoneIntlRE, "International phone number", .Partial⟩]

def IP_ADDRESS_PATTERNS : List PatternDef :=
  [⟨"\\b(?:(?:25[0-5]|2[0-4][0-9]|[01]?[0-9][0-9]?)\\.)\x7b3\x7d(?:25[0-5]|2[0-4][0-9]|[01]?[0-9][0-9]?)\\b",
    runRegex ipv4RE, "IPv4 address", .Redact⟩,
   ⟨"\\b(?:[A-Fa-f0-9]\x7b1,4\x7d:)\x7b7\x7d[A-Fa-f0-9]\x7b1,4\x7d\\b",
    runRegex ipv6RE, "IPv6 address", .Redact⟩]

def DOB_PATTERNS : List PatternDef :=
  [⟨"\\b(?:DOB|Date of Birth|Born|Birthday)[:\\s]+\\d\x7b1,2\x7d[-/]\\d\x7b1,2\x7d[-/]\\d\x7b2,4\x7d\\b",
    runRegex dobLabelRE, "Date of birth with label", .Redact⟩,
   ⟨"\\b(?:0[1-9]|1[0-2])[-/](?:0[1-9]|[12]\\d|3[01])[-/](?:19|20)\\d\x7b2\x7d\\b",
    runRegex dobDateRE, "Date in MM/DD/YYYY format", .Redact⟩]

def PASSPORT_PATTERNS : List PatternDef :=
  [⟨"\\b[A-Z]\x7b1,2\x7d\\d\x7b6,9\x7d\\b",
    runRegex passportRE, "Passport number", .Redact⟩]

def DRIVER_LICENSE_PATTERNS : List PatternDef :=
  [⟨"\\b(?:DL|License|Driver\x27?s? License)[#:\\s]+[A-Z0-9]\x7b5,20\x7d\\b",
    runRegex dlRE, "Driver\x27s license number", .Redact⟩]

def BANK_ACCOUNT_PATTERNS : List PatternDef :=
  [⟨"\\b\\d\x7b8,17\x7d\\b",
    runRegex bankRE, "Bank account number", .Redact⟩,
   ⟨"\\b[A-Z]\x7b2\x7d\\d\x7b2\x7d[A-Z0-9]\x7b4\x7d\\d\x7b7\x7d(?:\\d\x7b3\x7d)?\\b",
    runRegex ibanRE, "IBAN", .Partial⟩]

def MEDICAL_RECORD_PATTERNS : List PatternDef :=
  [⟨"\\b(?:MRN|Medical Record)[#:\\s]+[A-Z0-9]\x7b6,12\x7d\\b",
    runRegex mrnRE, "Medical record number", .Redact⟩]

def AWS_KEY_PATTERNS : List PatternDef :=
  [⟨"\\bAKIA[0-9A-Z]\x7b16\x7d\\b",
    runRegex awsAkiaRE, "AWS Access Key ID", .Redact⟩,
   ⟨"\\b[A-Za-z0-9/+=]\x7b40\x7d\\b",
    runRegex awsSecretRE, "AWS Secret Access Key", .Redact⟩]

def API_KEY_PATTERNS : List PatternDef :=
  [⟨"\\b(?:api[_-]?key|apikey|api_token|access[_-]?token)[:\\s]+[\x27\"]?[A-Za-z0-9\\-_]\x7b20,\x7d[\x27\"]?\\b",
    runRegex apiKeyRE, "Generic API key", .Redact⟩]

/-- A compiled pattern with metadata, from patterns.rs `CompiledPattern`. -/
structure CompiledPattern where
  pii_type : PIIType
  regex : Matcher
  mask_strategy : MaskingStrategy
  description : String

/-- The compiled pattern set, from patterns.rs `CompiledPatterns`.  The
source also stores a `RegexSet` pre-filter built from the same pattern
strings in the same order; semantically it reports exactly the indices of
patterns with at least one match, so the model derives the pre-filter
from the patterns' own matchers in `detect_internal` instead of keeping a
second copy of them. -/
structure CompiledPatterns where
  patterns : List CompiledPattern
  whitelist : List Matcher

/-- The `add_patterns!` helper of compile_patterns: append one category's
table when its flag is enabled. -/
def addPatterns (enabled : Bool) (ty : PIIType) (defs : List PatternDef)
    (acc : List CompiledPattern) : List CompiledPattern :=
  if enabled then
    acc ++ defs.map (fun d => ⟨ty, d.regex, d.mask_strategy, d.description⟩)
  else acc

/-- The built-in portion of compile_patterns, in the fixed category order
of patterns.rs. -/
def builtinPatterns (config : PIIConfig) : List CompiledPattern :=
  addPatterns config.detect_api_keys .ApiKey API_KEY_PATTERNS
    (addPatterns config.detect_aws_keys .AwsKey AWS_KEY_PATTERNS
      (addPatterns config.detect_medical_record .MedicalRecord MEDICAL_RECORD_PATTERNS
        (addPatterns config.detect_bank_account .BankAccount BANK_ACCOUNT_PATTERNS
          (addPatterns config.detect_driver_license .DriverLicense DRIVER_LICENSE_PATTERNS
            (addPatterns config.detect_passport .Passport PASSPORT_PATTERNS
              (addPatterns config.detect_date_of_birth .DateOfBirth DOB_PATTERNS
                (addPatterns config.detect_ip_address .IpAddress IP_ADDRESS_PATTERNS
                  (addPatterns config.detect_phone .Phone PHONE_PATTERNS
                    (addPatterns config.detect_email .Email EMAIL_PATTERNS
                      (addPatterns config.detect_credit_card .CreditCard CREDIT_CARD_PATTERNS
                        (addPatterns config.detect_ssn .Ssn SSN_PATTERNS [])))))))))))

/-- Compile the enabled custom patterns, tagged `PIIType::Custom`.  The
external regex compiler is the oracle `rc`; a failure is wrapped in the
source's error message naming the offending pattern. -/
def compileCustoms (rc : String → Except String Matcher) :
    List CustomPattern → Except String (List CompiledPattern)
  | [] => .ok []
  | c :: rest =>
      if c.enabled then
        match rc c.pattern with
        | .error e =>
            .error ("Failed to compile custom pattern '" ++ c.pattern ++ "': " ++ e)
        | .ok m =>
            match compileCustoms rc rest with
            | .error e => .error e
            | .ok tail => .ok (⟨.Custom, m, c.mask_strategy, c.description⟩ :: tail)
      else compileCustoms rc rest

/-- Compile the whitelist patterns. -/
def compileWhitelist (rc : String → Except String Matcher) :
    List String → Except String (List Matcher)
  | [] => .ok []
  | p :: rest =>
      match rc p with
      | .error e => .error ("Invalid whitelist pattern '" ++ p ++ "': " ++ e)
      | .ok m =>
          match compileWhitelist rc rest with
          | .error e => .error e
          | .ok tail => .ok (m :: tail)

/-- compile_patterns from patterns.rs: built-ins for enabled categories in
fixed order, then enabled custom patterns, then the compiled whitelist.
Either everything compiles or the whole call fails. -/
def compile_patterns (rc : String → Except String Matcher) (config : PIIConfig) :
    Except String CompiledPatterns :=
  match compileCustoms rc config.custom_patterns with
  | .error e => .error e
  | .ok customs =>
      match compileWhitelist rc config.whitelist_patterns with
      | .error e => .error e
      | .ok wl => .ok ⟨builtinPatterns config ++ customs, wl⟩

/-! ## Detector (detector.rs) -/

/-- A single detection result, from detector.rs `Detection` (the source
field `end` is a Lean keyword, written `end_` here). -/
structure Detection where
  value : List Char
  start : Nat
  end_ : Nat
  mask_strategy : MaskingStrategy
deriving DecidableEq, Repr

/-- A detection report, modelling `HashMap<PIIType, Vec<Detection>>` as an
insertion-ordered association list (the claims under study do not depend
on the hash map's key iteration order). -/
abbrev Report : Type := List (PIIType × List Detection)

/-- `text[start..end]` on the scanned text. -/
def slice (t : List Char) (s e : Nat) : List Char := (t.drop s).take (e - s)

/-- `detections.entry(ty).or_default().push(d)`. -/
def pushEntry (m : Report) (ty : PIIType) (d : Detection) : Report :=
  match m with
  | [] => [(ty, [d])]
  | (ty', l) :: rest =>
      if ty' = ty then (ty', l ++ [d]) :: rest else (ty', l) :: pushEntry rest ty d

/-- The flattened list of all detections of a report. -/
def flattenReport (m : Report) : List Detection := m.flatMap (fun p => p.2)

/-- The span-overlap test of detector.rs `has_overlap`, on raw offsets:
`(start >= det.start && start < det.end) || (end > det.start && end <=
det.end) || (start <= det.start && end >= det.end)`. -/
def overlapSpanB (s e ds de : Nat) : Bool :=
  (decide (s ≥ ds) && decide (s < de)) || (decide (e > ds) && decide (e ≤ de))
    || (decide (s ≤ ds) && decide (e ≥ de))

/-- detector.rs `has_overlap`: does the candidate span overlap any
detection already accepted, across all types. -/
def has_overlap (detections : Report) (s e : Nat) : Bool :=
  detections.any (fun p => p.2.any (fun det => overlapSpanB s e det.start det.end_))

/-- detector.rs `is_whitelisted`: some whitelist expression matches inside
the exact matched substring. -/
def is_whitelisted (wl : List Matcher) (t : List Char) (s e : Nat) : Bool :=
  wl.any (fun w => !(w (slice t s e)).isEmpty)

/-- `iter().enumerate()` with an explicit starting index. -/
def enumFrom (k : Nat) : List α → List (Nat × α)
  | [] => []
  | x :: xs => (k, x) :: enumFrom (k + 1) xs

/-- detector.rs `detect_internal`: query the pre-filter for the indices of
patterns with at least one match, then for each such pattern in compile
order enumerate its matches left to right, skipping whitelisted and
overlapping candidates, and group accepted detections by PII type. -/
def detect_internal (cp : CompiledPatterns) (t : List Char) : Report :=
  ((enumFrom 0 cp.patterns).filter (fun ip => !(ip.2.regex t).isEmpty)).foldl
    (fun detections ip =>
      (ip.2.regex t).foldl
        (fun detections m =>
          if is_whitelisted cp.whitelist t m.1 m.2 then detections
          else if has_overlap detections m.1 m.2 then detections
          else pushEntry detections ip.2.pii_type ⟨slice t m.1 m.2, m.1, m.2, ip.2.mask_strategy⟩)
        detections)
    []

end PII

namespace PII

/-! ## Masking (masking.rs)

Rust's `usize` subtraction and byte-level `&str` slicing can panic; both
are modelled with `Option`, `none` standing for a panic.  SHA-256 and the
UUID source are external: they are passed in as parameters (`sha` maps
the value to its hex digest, `tok` supplies the fresh random token for
the i-th replacement of one `mask_pii` call). -/

/-- Checked `usize` subtraction (panics on underflow in debug builds;
release builds wrap and then abort allocating the huge repeat). -/
def csub (a b : Nat) : Option Nat := if b ≤ a then some (a - b) else none

/-- UTF-8 byte length of a value, `value.len()` on a Rust `&str`. -/
def byteLen (v : List Char) : Nat := (v.map Char.utf8Size).sum

/-- `&value[..n]` — take `n` bytes, failing off a character boundary or
past the end. -/
def byteTake : Nat → List Char → Option (List Char)
  | 0, _ => some []
  | _ + 1, [] => none
  | n + 1, c :: cs =>
      if c.utf8Size ≤ n + 1 then (byteTake (n + 1 - c.utf8Size) cs).map (fun l => c :: l)
      else none

/-- `&value[n..]` — drop `n` bytes, failing off a character boundary or
past the end. -/
def byteDrop : Nat → List Char → Option (List Char)
  | 0, v => some v
  | _ + 1, [] => none
  | n + 1, c :: cs =>
      if c.utf8Size ≤ n + 1 then byteDrop (n + 1 - c.utf8Size) cs
      else none

/-- masking.rs partial masking (the function named with a lowercase
keyword of Lean in the source), per PII type; `none` models a panic. -/
def maskPartial (value : List Char) (pii_type : PIIType) : Option (List Char) :=
  match pii_type with
  | .Ssn =>
      if byteLen value ≥ 4 then
        (byteDrop (byteLen value - 4) value).map (fun s => "***-**-".toList ++ s)
      else some "***-**-****".toList
  | .CreditCard =>
      let digits_only := value.filter Char.isDigit
      if digits_only.length ≥ 4 then
        some ("****-****-****-".toList ++ digits_only.drop (digits_only.length - 4))
      else some "****-****-****-****".toList
  | .Email =>
      if value.contains '@' then
        let localPart := value.takeWhile (fun c => c ≠ '@')
        let domain := value.drop localPart.length
        if byteLen localPart > 2 then do
          let first ← byteTake 1 localPart
          let last ← byteDrop (byteLen localPart - 1) localPart
          some (first ++ "***".toList ++ last ++ domain)
        else some ("***".toList ++ domain)
      else some "[REDACTED]".toList
  | .Phone =>
      let digits_only := value.filter Char.isDigit
      if digits_only.length ≥ 4 then
        some ("***-***-".toList ++ digits_only.drop (digits_only.length - 4))
      else some "***-***-****".toList
  | .BankAccount =>
      if byteLen value ≥ 4 && value.any Char.isAlpha then do
        let first2 ← byteTake 2 value
        let stars ← csub (byteLen value) 6
        let last4 ← byteDrop (byteLen value - 4) value
        some (first2 ++ List.replicate stars '*' ++ last4)
      else some "[REDACTED]".toList
  | _ =>
      if byteLen value > 2 then do
        let first ← byteTake 1 value
        let last ← byteDrop (byteLen value - 1) value
        some (first ++ List.replicate (byteLen value - 2) '*' ++ last)
      else if byteLen value = 2 then
        (byteTake 1 value).map (fun f => f ++ ['*'])
      else some ['*']

/-- masking.rs `hash_mask`: `[HASH:` + first 8 hex characters of the
SHA-256 digest + `]` (the digest always has 64 characters, so the take
never truncates short). -/
def hash_mask (sha : List Char → List Char) (value : List Char) : List Char :=
  "[HASH:".toList ++ (sha value).take 8 ++ "]".toList

/-- masking.rs `tokenize_mask`: `[TOKEN:` + first 8 characters of a fresh
UUIDv4 (simple form) + `]`. -/
def tokenize_mask (tokv : List Char) : List Char :=
  "[TOKEN:".toList ++ tokv.take 8 ++ "]".toList

/-- masking.rs `apply_mask_strategy`. -/
def apply_mask_strategy (sha : List Char → List Char) (tokv : List Char)
    (value : List Char) (pii_type : PIIType) (strategy : MaskingStrategy)
    (config : PIIConfig) : Option (List Char) :=
  match strategy with
  | .Redact => some config.redaction_text.toList
  | .Partial => maskPartial value pii_type
  | .Hash => some (hash_mask sha value)
  | .Tokenize => some (tokenize_mask tokv)
  | .Remove => some []

/-- `String::replace_range` (panics when the range is out of bounds). -/
def replace_range (res : List Char) (s e : Nat) (repl : List Char) : Option (List Char) :=
  if s ≤ e ∧ e ≤ res.length then some (res.take s ++ repl ++ res.drop e) else none

/-- One insertion step of the stable descending-by-start sort used by
`mask_pii` (`sort_by(|a, b| b.0.start.cmp(&a.0.start))`): an element goes
after every already-placed element whose start is not smaller. -/
def insertByStartDesc (x : Detection × PIIType) :
    List (Detection × PIIType) → List (Detection × PIIType)
  | [] => [x]
  | y :: ys => if x.1.start ≤ y.1.start then y :: insertByStartDesc x ys else x :: y :: ys

/-- Stable sort by descending start offset. -/
def sortByStartDesc (l : List (Detection × PIIType)) : List (Detection × PIIType) :=
  l.foldl (fun acc x => insertByStartDesc x acc) []

/-- masking.rs `mask_pii`: return the text unchanged for an empty report
(the source returns `Cow::Borrowed`, i.e. the very same text without
copying); otherwise flatten, sort by descending start, and splice each
span's masked value from the highest offset downward. -/
def mask_pii (sha : List Char → List Char) (tok : Nat → List Char) (text : List Char)
    (detections : Report) (config : PIIConfig) : Option (List Char) :=
  if detections.isEmpty then some text
  else
    let all_detections := detections.flatMap (fun p => p.2.map (fun d => (d, p.1)))
    (enumFrom 0 (sortByStartDesc all_detections)).foldlM
      (fun result ix => do
        let masked ← apply_mask_strategy sha (tok ix.1) ix.2.1.value ix.2.2
          ix.2.1.mask_strategy config
        replace_range result ix.2.1.start ix.2.1.end_ masked)
      text

/-! ## Structural rewriter (detector.rs `process_nested`) -/

/-- Host values reachable from Python: strings, dicts (iteration order =
insertion order, keys extracted as strings), lists, and opaque other
values that are passed through untouched. -/
inductive PyValue where
  | str (s : String)
  | dict (entries : List (String × PyValue))
  | list (items : List PyValue)
  | other

/-- `detections.entry(ty).or_default().extend(ds)`. -/
def pushList (m : Report) (ty : PIIType) (ds : List Detection) : Report :=
  match m with
  | [] => [(ty, ds)]
  | (ty', l) :: rest =>
      if ty' = ty then (ty', l ++ ds) :: rest else (ty', l) :: pushList rest ty ds

/-- Merge a child's report into the accumulator, concatenating the lists
per type.  The source round-trips the child report through the Python
representation (`rust_detections_to_py` then `str_to_pii_type` /
`py_list_to_detections`); that round trip is the identity on every field,
so the model merges directly. -/
def mergeReport (acc : Report) (child : Report) : Report :=
  child.foldl (fun m p => pushList m p.1 p.2) acc

mutual

/-- detector.rs `process_nested`: strings are detected and masked, dicts
and lists are rebuilt entry by entry with dotted/indexed paths, anything
else passes through unchanged.  `none` models a masking panic. -/
def process_nested (cp : CompiledPatterns) (config : PIIConfig)
    (sha : List Char → List Char) (tok : Nat → List Char) :
    PyValue → String → Option (Bool × PyValue × Report)
  | .str text, _ =>
      let detections := detect_internal cp text.toList
      if !detections.isEmpty then do
        let masked ← mask_pii sha tok text.toList detections config
        some (true, .str masked.asString, detections)
      else some (false, .str text, [])
  | .dict entries, path => do
      let r ← processEntries cp config sha tok false [] [] entries path
      some (r.1, .dict r.2.1, r.2.2)
  | .list items, path => do
      let r ← processItems cp config sha tok false [] [] items path 0
      some (r.1, .list r.2.1, r.2.2)
  | .other, _ => some (false, .other, [])

/-- The dict loop of `process_nested`, carrying the modified flag, the
rebuilt entries and the accumulated report. -/
def processEntries (cp : CompiledPatterns) (config : PIIConfig)
    (sha : List Char → List Char) (tok : Nat → List Char)
    (modified : Bool) (built : List (String × PyValue)) (dets : Report) :
    List (String × PyValue) → String → Option (Bool × List (String × PyValue) × Report)
  | [], _ => some (modified, built, dets)
  | (key, value) :: rest, path => do
      let new_path := if path = "" then key else path ++ "." ++ key
      let r ← process_nested cp config sha tok value new_path
      if r.1 then
        processEntries cp config sha tok true (built ++ [(key, r.2.1)])
          (mergeReport dets r.2.2) rest path
      else
        processEntries cp config sha tok modified (built ++ [(key, value)]) dets rest path

/-- The list loop of `process_nested`. -/
def processItems (cp : CompiledPatterns) (config : PIIConfig)
    (sha : List Char → List Char) (tok : Nat → List Char)
    (modified : Bool) (built : List PyValue) (dets : Report) :
    List PyValue → String → Nat → Option (Bool × List PyValue × Report)
  | [], _, _ => some (modified, built, dets)
  | item :: rest, path, idx => do
      let new_path := path ++ "[" ++ toString idx ++ "]"
      let r ← process_nested cp config sha tok item new_path
      if r.1 then
        processItems cp config sha tok true (built ++ [r.2.1])
          (mergeReport dets r.2.2) rest path (idx + 1)
      else
        processItems cp config sha tok modified (built ++ [item]) dets rest path (idx + 1)

end

end PII

namespace PII

/-! ## Concrete instances used by the claims -/

/-- The compiled pattern set of the default configuration (all built-in
categories enabled, no custom or whitelist patterns). -/
def defaultPatterns : CompiledPatterns := ⟨builtinPatterns PIIConfig.default, []⟩

/-- A configuration enabling only SSN and bank-account detection. -/
def cfgSsnBank : PIIConfig :=
  { PIIConfig.default with
    detect_credit_card := false, detect_email := false, detect_phone := false,
    detect_ip_address := false, detect_date_of_birth := false,
    detect_passport := false, detect_driver_license := false,
    detect_medical_record := false, detect_aws_keys := false,
    detect_api_keys := false }

def cpSsnBank : CompiledPatterns := ⟨builtinPatterns cfgSsnBank, []⟩

/-- A configuration enabling only email detection. -/
def cfgEmailOnly : PIIConfig :=
  { PIIConfig.default with
    detect_ssn := false, detect_credit_card := false, detect_phone := false,
    detect_ip_address := false, detect_date_of_birth := false,
    detect_passport := false, detect_driver_license := false,
    detect_bank_account := false, detect_medical_record := false,
    detect_aws_keys := false, detect_api_keys := false,
    whitelist_patterns := ["test@example\\.com"] }

/-- Email-only patterns with the compiled whitelist expression
`test@example\.com` (a case-insensitive literal). -/
def cpEmailWhitelist : CompiledPatterns :=
  ⟨builtinPatterns cfgEmailOnly, [runRegex (strRE "test@example.com")]⟩

/-- A configuration enabling only SSN detection. -/
def cfgSsnOnly : PIIConfig :=
  { PIIConfig.default with
    detect_credit_card := false, detect_email := false, detect_phone := false,
    detect_ip_address := false, detect_date_of_birth := false,
    detect_passport := false, detect_driver_license := false,
    detect_bank_account := false, detect_medical_record := false,
    detect_aws_keys := false, detect_api_keys := false }

def cpSsnOnly : CompiledPatterns := ⟨builtinPatterns cfgSsnOnly, []⟩

/-- The matcher of the custom pattern literal `a*` (a greedy star of the
letter `a`), which can match the empty string. -/
def aStarMatcher : Matcher := runRegex (.repCls (fun c => c = 'a') 0 none)

/-- A configuration whose only active pattern is the custom pattern
`a*`. -/
def cfgStar : PIIConfig :=
  { PIIConfig.default with
    detect_ssn := false, detect_credit_card := false, detect_email := false,
    detect_phone := false, detect_ip_address := false,
    detect_date_of_birth := false, detect_passport := false,
    detect_driver_license := false, detect_bank_account := false,
    detect_medical_record := false, detect_aws_keys := false,
    detect_api_keys := false,
    custom_patterns := [⟨"a*", "a run", .Redact, true⟩] }

/-- The compiled pattern set of `cfgStar`. -/
def cpStar : CompiledPatterns := ⟨[⟨.Custom, aStarMatcher, .Redact, "a run"⟩], []⟩


end PII

namespace PII

/-! ## Trace reformulation of the detector

`detectTrace` performs literally the same nested iteration as
`detect_internal`, but keeps the accepted detections in one flat list in
acceptance order, annotated with the index of the pattern that produced
them.  `detect_internal_eq_buildReport` proves the two agree. -/

/-- One raw candidate match: pattern index, the pattern's type and
strategy, and the match span. -/
structure Cand where
  idx : Nat
  ty : PIIType
  strat : MaskingStrategy
  s : Nat
  e : Nat

/-- A trace entry: an accepted detection with pattern provenance. -/
structure TraceEntry where
  idx : Nat
  ty : PIIType
  det : Detection

/-- All raw candidates of one detect call, in processing order (patterns
in compile order, matches left to right).  Patterns filtered out by the
pre-filter contribute an empty match list, so the pre-filter does not
change this list. -/
def candidatesOf (cp : CompiledPatterns) (t : List Char) : List Cand :=
  (enumFrom 0 cp.patterns).flatMap
    (fun ip => (ip.2.regex t).map (fun m => ⟨ip.1, ip.2.pii_type, ip.2.mask_strategy, m.1, m.2⟩))

/-- `has_overlap` against a flat accepted list. -/
def hasOverlapT (acc : List TraceEntry) (s e : Nat) : Bool :=
  acc.any (fun x => overlapSpanB s e x.det.start x.det.end_)

/-- The acceptance step of detect_internal on the flat accepted list. -/
def stepT (wl : List Matcher) (t : List Char) (acc : List TraceEntry) (c : Cand) :
    List TraceEntry :=
  if is_whitelisted wl t c.s c.e then acc
  else if hasOverlapT acc c.s c.e then acc
  else acc ++ [⟨c.idx, c.ty, ⟨slice t c.s c.e, c.s, c.e, c.strat⟩⟩]

/-- The detector as a flat fold over the candidate list. -/
def detectTrace (cp : CompiledPatterns) (t : List Char) : List TraceEntry :=
  (candidatesOf cp t).foldl (stepT cp.whitelist t) []

/-- Regroup a flat accepted list by PII type, as detect_internal does. -/
def buildReport (l : List TraceEntry) : Report :=
  l.foldl (fun m x => pushEntry m x.ty x.det) []

/-- The acceptance step of detect_internal on the grouped report. -/
def stepR (wl : List Matcher) (t : List Char) (acc : Report) (c : Cand) : Report :=
  if is_whitelisted wl t c.s c.e then acc
  else if has_overlap acc c.s c.e then acc
  else pushEntry acc c.ty ⟨slice t c.s c.e, c.s, c.e, c.strat⟩

end PII

namespace PII

lemma filter_foldl_of_empty_id {α γ : Type} (q : α → Bool) (f : γ → α → γ)
    (h : ∀ acc x, q x = false → f acc x = acc) :
    ∀ (l : List α) (init : γ), (l.filter q).foldl f init = l.foldl f init := by
  intro l
  induction l with
  | nil => intro init; rfl
  | cons x xs ih =>
      intro init
      rw [List.filter_cons]
      by_cases hx : q x
      · rw [if_pos (by simpa using hx), List.foldl_cons, List.foldl_cons]
        exact ih _
      · rw [if_neg (by simpa using hx), List.foldl_cons,
          h init x (by simpa using hx)]
        exact ih _

lemma detect_internal_eq_candidates (cp : CompiledPatterns) (t : List Char) :
    detect_internal cp t = (candidatesOf cp t).foldl (stepR cp.whitelist t) [] := by
  have h : ∀ (E : List (Nat × CompiledPattern)) (acc : Report),
      (E.filter (fun ip => !(ip.2.regex t).isEmpty)).foldl
        (fun detections ip =>
          (ip.2.regex t).foldl
            (fun detections m =>
              if is_whitelisted cp.whitelist t m.1 m.2 then detections
              else if has_overlap detections m.1 m.2 then detections
              else pushEntry detections ip.2.pii_type
                ⟨slice t m.1 m.2, m.1, m.2, ip.2.mask_strategy⟩)
            detections)
        acc
      = (E.flatMap (fun ip => (ip.2.regex t).map
          (fun m => (⟨ip.1, ip.2.pii_type, ip.2.mask_strategy, m.1, m.2⟩ : Cand)))).foldl
          (stepR cp.whitelist t) acc := by
    intro E
    induction E with
    | nil => intro acc; rfl
    | cons ip rest ih =>
        intro acc
        rw [List.filter_cons, List.flatMap_cons, List.foldl_append]
        by_cases hne : (ip.2.regex t).isEmpty
        · have hz : ip.2.regex t = [] := by simpa [List.isEmpty_iff] using hne
          simp only [hz, List.isEmpty_nil, Bool.not_true, if_neg (by simp : ¬((false : Bool) = true)),
            List.map_nil, List.foldl_nil]
          exact ih acc
        · rw [if_pos (by simpa using hne), List.foldl_cons, List.foldl_map]
          have hstep : (ip.2.regex t).foldl
              (fun detections m =>
                if is_whitelisted cp.whitelist t m.1 m.2 then detections
                else if has_overlap detections m.1 m.2 then detections
                else pushEntry detections ip.2.pii_type
                  ⟨slice t m.1 m.2, m.1, m.2, ip.2.mask_strategy⟩)
              acc
            = (ip.2.regex t).foldl
              (fun acc m => stepR cp.whitelist t acc
                (⟨ip.1, ip.2.pii_type, ip.2.mask_strategy, m.1, m.2⟩ : Cand)) acc := rfl
          rw [hstep] at *
          exact ih _
  exact h _ _

lemma buildReport_append (a : List TraceEntry) (x : TraceEntry) :
    buildReport (a ++ [x]) = pushEntry (buildReport a) x.ty x.det := by
  unfold buildReport
  rw [List.foldl_append]
  rfl

lemma flatten_pushEntry (m : Report) (ty : PIIType) (d : Detection) :
    (flattenReport (pushEntry m ty d)).Perm (flattenReport m ++ [d]) := by
  induction m with
  | nil => simp [pushEntry, flattenReport]
  | cons p rest ih =>
      obtain ⟨ty', l⟩ := p
      by_cases h : ty' = ty
      · simp only [pushEntry, if_pos h, flattenReport, List.flatMap_cons, List.append_assoc]
        exact List.Perm.append_left l List.perm_append_comm
      · simp only [pushEntry, if_neg h, flattenReport, List.flatMap_cons, List.append_assoc]
        exact List.Perm.append_left l ih

lemma flatten_buildReport (a : List TraceEntry) :
    (flattenReport (buildReport a)).Perm (a.map (fun x => x.det)) := by
  induction a using List.reverseRecOn with
  | nil => simp [buildReport, flattenReport]
  | append_singleton a x ih =>
      rw [buildReport_append]
      refine ((flatten_pushEntry _ _ _).trans ?_)
      refine (ih.append_right [x.det]).trans ?_
      simp

lemma any_of_perm {α : Type} {l l' : List α} (f : α → Bool) (h : l.Perm l') :
    l.any f = l'.any f := by
  cases hb : l'.any f
  · rw [List.any_eq_false] at hb ⊢
    intro x hx
    exact hb x (h.mem_iff.mp hx)
  · rw [List.any_eq_true] at hb ⊢
    obtain ⟨x, hx, hfx⟩ := hb
    exact ⟨x, h.mem_iff.mpr hx, hfx⟩

lemma has_overlap_flatten (m : Report) (s e : Nat) :
    has_overlap m s e
      = (flattenReport m).any (fun det => overlapSpanB s e det.start det.end_) := by
  induction m with
  | nil => rfl
  | cons p rest ih =>
      simp only [has_overlap, flattenReport, List.any_cons, List.flatMap_cons,
        List.any_append] at *
      rw [ih]

lemma has_overlap_buildReport (a : List TraceEntry) (s e : Nat) :
    has_overlap (buildReport a) s e = hasOverlapT a s e := by
  rw [has_overlap_flatten, any_of_perm _ (flatten_buildReport a)]
  induction a with
  | nil => rfl
  | cons x xs ih =>
      simp only [List.map_cons, List.any_cons, hasOverlapT] at ih ⊢
      rw [ih]

lemma stepR_eq_stepT (wl : List Matcher) (t : List Char) (a : List TraceEntry) (c : Cand) :
    stepR wl t (buildReport a) c = buildReport (stepT wl t a c) := by
  unfold stepR stepT
  rw [has_overlap_buildReport]
  by_cases h1 : is_whitelisted wl t c.s c.e
  · simp [h1]
  · by_cases h2 : hasOverlapT a c.s c.e <;> simp [h1, h2, buildReport_append]

lemma foldl_stepR_buildReport (wl : List Matcher) (t : List Char) :
    ∀ (cands : List Cand) (a : List TraceEntry),
      cands.foldl (stepR wl t) (buildReport a) = buildReport (cands.foldl (stepT wl t) a) := by
  intro cands
  induction cands with
  | nil => intro a; rfl
  | cons c rest ih =>
      intro a
      rw [List.foldl_cons, List.foldl_cons, stepR_eq_stepT, ih]

/-- The grouped report of `detect_internal` is the regrouping of the flat
annotated trace. -/
lemma detect_internal_eq_buildReport (cp : CompiledPatterns) (t : List Char) :
    detect_internal cp t = buildReport (detectTrace cp t) := by
  rw [detect_internal_eq_candidates]
  have h0 : ([] : Report) = buildReport [] := rfl
  rw [h0, foldl_stepR_buildReport]
  rfl

end PII

namespace PII

/-- The overlap rule of spec section 4.2 on spans `[s1,e1)` and `[s2,e2)`:
`s1` falls inside `[s2,e2)`, or `e1` falls inside `(s2,e2]`, or one span
fully contains the other. -/
def spanOverlap (s1 e1 s2 e2 : Nat) : Prop :=
  (s2 ≤ s1 ∧ s1 < e2) ∨ (s2 < e1 ∧ e1 ≤ e2) ∨ (s1 ≤ s2 ∧ e2 ≤ e1) ∨ (s2 ≤ s1 ∧ e1 ≤ e2)

instance (s1 e1 s2 e2 : Nat) : Decidable (spanOverlap s1 e1 s2 e2) := by
  unfold spanOverlap
  infer_instance

/-- Two detections whose spans do not overlap, in either orientation of
the spec rule. -/
def nonOverlapping (d d' : Detection) : Prop :=
  ¬ spanOverlap d.start d.end_ d'.start d'.end_
    ∧ ¬ spanOverlap d'.start d'.end_ d.start d.end_

/-- If the detector's `has_overlap` test rejects a pair of well-formed
spans, they also do not overlap under the spec 4.2 rule, in either
orientation. -/
lemma not_spanOverlap_of_overlapSpanB_false {s e ds de : Nat}
    (hse : s ≤ e) (_hdd : ds ≤ de) (h : overlapSpanB s e ds de = false) :
    ¬ spanOverlap s e ds de ∧ ¬ spanOverlap ds de s e := by
  simp only [overlapSpanB, Bool.or_eq_false_iff, Bool.and_eq_false_iff,
    decide_eq_false_iff_not, not_le, not_lt] at h
  unfold spanOverlap
  omega

/-- Every element of the accepted fold satisfies `Q` provided the initial
accumulator does, and every candidate accepted through the whitelist and
overlap guards does. -/
lemma foldl_stepT_forall (wl : List Matcher) (t : List Char) (Q : TraceEntry → Prop) :
    ∀ (cands : List Cand) (a : List TraceEntry),
      (∀ x ∈ a, Q x) →
      (∀ (acc : List TraceEntry) (c : Cand), c ∈ cands →
        is_whitelisted wl t c.s c.e = false → hasOverlapT acc c.s c.e = false →
        Q ⟨c.idx, c.ty, ⟨slice t c.s c.e, c.s, c.e, c.strat⟩⟩) →
      ∀ x ∈ cands.foldl (stepT wl t) a, Q x := by
  intro cands
  induction cands with
  | nil => intro a ha _ x hx; exact ha x hx
  | cons c rest ih =>
      intro a ha hstep x hx
      rw [List.foldl_cons] at hx
      refine ih (stepT wl t a c) ?_ (fun acc c' hc' => hstep acc c' (List.mem_cons_of_mem _ hc')) x hx
      intro y hy
      unfold stepT at hy
      by_cases h1 : is_whitelisted wl t c.s c.e
      · rw [if_pos h1] at hy; exact ha y hy
      · rw [if_neg h1] at hy
        by_cases h2 : hasOverlapT a c.s c.e
        · rw [if_pos h2] at hy; exact ha y hy
        · rw [if_neg h2] at hy
          rcases List.mem_append.mp hy with hy | hy
          · exact ha y hy
          · rcases List.mem_singleton.mp hy with rfl
            exact hstep a c (List.mem_cons_self _ _) (by simpa using h1) (by simpa using h2)

/-- The acceptance fold preserves well-formed spans and pairwise
non-overlap. -/
lemma foldl_stepT_pairwise (wl : List Matcher) (t : List Char) :
    ∀ (cands : List Cand) (a : List TraceEntry),
      (∀ c ∈ cands, c.s ≤ c.e) →
      (∀ x ∈ a, x.det.start ≤ x.det.end_) →
      List.Pairwise (fun x y => nonOverlapping x.det y.det) a →
      (∀ x ∈ cands.foldl (stepT wl t) a, x.det.start ≤ x.det.end_)
        ∧ List.Pairwise (fun x y => nonOverlapping x.det y.det)
            (cands.foldl (stepT wl t) a) := by
  intro cands
  induction cands with
  | nil => intro a _ ha hp; exact ⟨ha, hp⟩
  | cons c rest ih =>
      intro a hc ha hp
      rw [List.foldl_cons]
      have hcs : c.s ≤ c.e := hc c (List.mem_cons_self _ _)
      have hstep : (∀ x ∈ stepT wl t a c, x.det.start ≤ x.det.end_)
          ∧ List.Pairwise (fun x y => nonOverlapping x.det y.det) (stepT wl t a c) := by
        unfold stepT
        by_cases h1 : is_whitelisted wl t c.s c.e
        · rw [if_pos h1]; exact ⟨ha, hp⟩
        · rw [if_neg h1]
          by_cases h2 : hasOverlapT a c.s c.e
          · rw [if_pos h2]; exact ⟨ha, hp⟩
          · rw [if_neg h2]
            have hov : ∀ x ∈ a, overlapSpanB c.s c.e x.det.start x.det.end_ = false := by
              intro x hx
              have := (List.any_eq_false.mp (by simpa [hasOverlapT] using h2)) x hx
              simpa using this
            constructor
            · intro x hx
              rcases List.mem_append.mp hx with hx | hx
              · exact ha x hx
              · rcases List.mem_singleton.mp hx with rfl
                exact hcs
            · rw [List.pairwise_append]
              refine ⟨hp, List.pairwise_singleton _ _, ?_⟩
              intro x hx y hy
              rcases List.mem_singleton.mp hy with rfl
              have hno := not_spanOverlap_of_overlapSpanB_false hcs (ha x hx) (hov x hx)
              exact ⟨hno.2, hno.1⟩
      exact ih (stepT wl t a c) (fun c' hc' => hc c' (List.mem_cons_of_mem _ hc'))
        hstep.1 hstep.2

end PII

namespace PII

lemma enumFrom_append {α : Type} (l1 l2 : List α) :
    ∀ k, enumFrom k (l1 ++ l2) = enumFrom k l1 ++ enumFrom (k + l1.length) l2 := by
  induction l1 with
  | nil => intro k; simp [enumFrom]
  | cons x xs ih =>
      intro k
      have h2 : k + 1 + xs.length = k + (xs.length + 1) := by omega
      calc enumFrom k (x :: xs ++ l2)
          = (k, x) :: enumFrom (k + 1) (xs ++ l2) := rfl
        _ = (k, x) :: (enumFrom (k + 1) xs ++ enumFrom (k + 1 + xs.length) l2) := by
            rw [ih (k + 1)]
        _ = enumFrom k (x :: xs) ++ enumFrom (k + (xs.length + 1)) l2 := by rw [h2]; rfl

lemma enumFrom_mem_bounds {α : Type} :
    ∀ (l : List α) (k : Nat), ∀ x ∈ enumFrom k l, k ≤ x.1 ∧ x.1 < k + l.length := by
  intro l
  induction l with
  | nil => intro k x hx; simp [enumFrom] at hx
  | cons y ys ih =>
      intro k x hx
      rcases List.mem_cons.mp hx with rfl | hx
      · simp only [List.length_cons]
        omega
      · have := ih (k + 1) x hx
        simp only [List.length_cons]
        omega

lemma enumFrom_mem_snd {α : Type} :
    ∀ (l : List α) (k : Nat), ∀ x ∈ enumFrom k l, x.2 ∈ l := by
  intro l
  induction l with
  | nil => intro k x hx; simp [enumFrom] at hx
  | cons y ys ih =>
      intro k x hx
      rcases List.mem_cons.mp hx with rfl | hx
      · simp
      · exact List.mem_cons_of_mem _ (ih (k + 1) x hx)

lemma enumFrom_mem_get {α : Type} :
    ∀ (l : List α) (k idx : Nat) (h : idx < l.length),
      (k + idx, l.get ⟨idx, h⟩) ∈ enumFrom k l := by
  intro l
  induction l with
  | nil => intro k idx h; simp at h
  | cons y ys ih =>
      intro k idx h
      cases idx with
      | zero => simp [enumFrom]
      | succ n =>
          have := ih (k + 1) n (by simpa using Nat.lt_of_succ_lt_succ h)
          have heq : k + (n + 1) = k + 1 + n := by omega
          rw [heq]
          exact List.mem_cons_of_mem _ this

/-- A span is blocked at an accumulator state: its substring is
whitelisted, or it overlaps an already-accepted detection. -/
def blockedSpan (wl : List Matcher) (t : List Char) (a : List TraceEntry) (s e : Nat) : Prop :=
  is_whitelisted wl t s e = true
    ∨ ∃ x ∈ a, overlapSpanB s e x.det.start x.det.end_ = true

lemma mem_stepT {wl : List Matcher} {t : List Char} {a : List TraceEntry} {c : Cand}
    {x : TraceEntry} (h : x ∈ a) : x ∈ stepT wl t a c := by
  unfold stepT
  by_cases h1 : is_whitelisted wl t c.s c.e
  · rwa [if_pos h1]
  · rw [if_neg h1]
    by_cases h2 : hasOverlapT a c.s c.e
    · rwa [if_pos h2]
    · rw [if_neg h2]; exact List.mem_append_left _ h

lemma blockedSpan_stepT {wl : List Matcher} {t : List Char} {a : List TraceEntry}
    {c : Cand} {s e : Nat} (h : blockedSpan wl t a s e) :
    blockedSpan wl t (stepT wl t a c) s e := by
  rcases h with h | ⟨x, hx, hov⟩
  · exact Or.inl h
  · exact Or.inr ⟨x, mem_stepT hx, hov⟩

lemma blockedSpan_foldl {wl : List Matcher} {t : List Char} {s e : Nat} :
    ∀ (cands : List Cand) (a : List TraceEntry), blockedSpan wl t a s e →
      blockedSpan wl t (cands.foldl (stepT wl t) a) s e := by
  intro cands
  induction cands with
  | nil => intro a h; exact h
  | cons c rest ih => intro a h; exact ih _ (blockedSpan_stepT h)

/-- After a candidate with span `(c.s, c.e)` is processed, that span is
blocked: the candidate was whitelisted, or it overlapped an accepted
detection, or it was itself accepted (a span overlaps itself). -/
lemma blockedSpan_stepT_self (wl : List Matcher) (t : List Char) (a : List TraceEntry)
    (c : Cand) : blockedSpan wl t (stepT wl t a c) c.s c.e := by
  unfold stepT
  by_cases h1 : is_whitelisted wl t c.s c.e
  · rw [if_pos h1]; exact Or.inl h1
  · rw [if_neg h1]
    by_cases h2 : hasOverlapT a c.s c.e
    · rw [if_pos h2]
      have h2t : hasOverlapT a c.s c.e = true := by simpa using h2
      unfold hasOverlapT at h2t
      obtain ⟨x, hx, hov⟩ := List.any_eq_true.mp h2t
      exact Or.inr ⟨x, hx, by simpa using hov⟩
    · rw [if_neg h2]
      refine Or.inr ⟨⟨c.idx, c.ty, ⟨slice t c.s c.e, c.s, c.e, c.strat⟩⟩,
        List.mem_append_right _ (List.mem_singleton_self _), ?_⟩
      simp [overlapSpanB]

/-- Once a span is blocked, no later candidate can add a detection with
that exact span. -/
lemma blockedSpan_no_new {wl : List Matcher} {t : List Char} {s e : Nat} :
    ∀ (cands : List Cand) (a : List TraceEntry), blockedSpan wl t a s e →
      ∀ x ∈ cands.foldl (stepT wl t) a,
        x ∈ a ∨ ¬ (x.det.start = s ∧ x.det.end_ = e) := by
  intro cands
  induction cands with
  | nil => intro a _ x hx; exact Or.inl hx
  | cons c rest ih =>
      intro a hb x hx
      rw [List.foldl_cons] at hx
      rcases ih (stepT wl t a c) (blockedSpan_stepT hb) x hx with hmem | hne
      · unfold stepT at hmem
        by_cases h1 : is_whitelisted wl t c.s c.e
        · rw [if_pos h1] at hmem; exact Or.inl hmem
        · rw [if_neg h1] at hmem
          by_cases h2 : hasOverlapT a c.s c.e
          · rw [if_pos h2] at hmem; exact Or.inl hmem
          · rw [if_neg h2] at hmem
            rcases List.mem_append.mp hmem with hmem | hmem
            · exact Or.inl hmem
            · rcases List.mem_singleton.mp hmem with rfl
              refine Or.inr ?_
              intro hse
              have hs : c.s = s := hse.1
              have he : c.e = e := hse.2
              rcases hb with hb | ⟨y, hy, hov⟩
              · rw [← hs, ← he] at hb
                exact absurd hb (by simpa using h1)
              · have hT : hasOverlapT a c.s c.e = true := by
                  unfold hasOverlapT
                  rw [List.any_eq_true]
                  refine ⟨y, hy, ?_⟩
                  show overlapSpanB c.s c.e y.det.start y.det.end_ = true
                  rw [hs, he]
                  exact hov
                exact absurd hT (by simpa using h2)
      · exact Or.inr hne

/-- Processing a candidate list containing a candidate with span `(s, e)`
leaves the span blocked. -/
lemma blockedSpan_of_processed {wl : List Matcher} {t : List Char} {s e : Nat} :
    ∀ (cands : List Cand) (a : List TraceEntry) (c0 : Cand), c0 ∈ cands →
      c0.s = s → c0.e = e → blockedSpan wl t (cands.foldl (stepT wl t) a) s e := by
  intro cands
  induction cands with
  | nil => intro a c0 h; simp at h
  | cons c rest ih =>
      intro a c0 hmem hs he
      rw [List.foldl_cons]
      rcases List.mem_cons.mp hmem with rfl | hmem
      · subst hs; subst he
        exact blockedSpan_foldl rest _ (blockedSpan_stepT_self wl t a c0)
      · exact ih _ c0 hmem hs he

end PII

namespace PII

/-- Spans of candidates inherit any property of the raw matcher output. -/
lemma candidatesOf_wf (cp : CompiledPatterns) (t : List Char) (P : Nat → Nat → Prop)
    (h : ∀ p ∈ cp.patterns, ∀ m ∈ p.regex t, P m.1 m.2) :
    ∀ c ∈ candidatesOf cp t, P c.s c.e := by
  intro c hc
  unfold candidatesOf at hc
  rw [List.mem_flatMap] at hc
  obtain ⟨ip, hip, hc⟩ := hc
  rw [List.mem_map] at hc
  obtain ⟨m, hm, rfl⟩ := hc
  exact h ip.2 (enumFrom_mem_snd _ _ _ hip) m hm

lemma compileCustoms_ok (rc : String → Except String Matcher) :
    ∀ (l : List CustomPattern) (cs : List CompiledPattern),
      compileCustoms rc l = .ok cs →
      List.Forall₂
        (fun (cp : CompiledPattern) (c : CustomPattern) =>
          cp.pii_type = .Custom ∧ cp.mask_strategy = c.mask_strategy
            ∧ cp.description = c.description ∧ rc c.pattern = .ok cp.regex)
        cs (l.filter (fun c => c.enabled)) := by
  intro l
  induction l with
  | nil =>
      intro cs h
      cases h
      simp only [List.filter_nil]
      exact List.Forall₂.nil
  | cons c rest ih =>
      intro cs h
      unfold compileCustoms at h
      rw [List.filter_cons]
      by_cases hen : c.enabled
      · rw [if_pos hen] at h
        rw [if_pos (by simpa using hen)]
        cases hrc : rc c.pattern with
        | error e => rw [hrc] at h; exact Except.noConfusion h
        | ok m =>
            rw [hrc] at h
            cases htail : compileCustoms rc rest with
            | error e => rw [htail] at h; exact Except.noConfusion h
            | ok tail =>
                rw [htail] at h
                cases h
                exact List.Forall₂.cons ⟨rfl, rfl, rfl, hrc⟩ (ih tail htail)
      · rw [if_neg hen] at h
        rw [if_neg (by simpa using hen)]
        exact ih cs h

lemma compileCustoms_error (rc : String → Except String Matcher) :
    ∀ (l : List CustomPattern) (e : String), compileCustoms rc l = .error e →
      ∃ c ∈ l, c.enabled = true ∧ ∃ msg, rc c.pattern = .error msg
        ∧ e = "Failed to compile custom pattern '" ++ c.pattern ++ "': " ++ msg := by
  intro l
  induction l with
  | nil => intro e h; exact Except.noConfusion h
  | cons c rest ih =>
      intro e h
      unfold compileCustoms at h
      by_cases hen : c.enabled
      · rw [if_pos hen] at h
        cases hrc : rc c.pattern with
        | error msg =>
            rw [hrc] at h
            cases h
            exact ⟨c, List.mem_cons_self _ _, by simpa using hen, msg, hrc, rfl⟩
        | ok m =>
            rw [hrc] at h
            cases htail : compileCustoms rc rest with
            | error e2 =>
                rw [htail] at h
                cases h
                obtain ⟨c2, hc2, hen2, msg, hrc2, heq⟩ := ih _ htail
                exact ⟨c2, List.mem_cons_of_mem _ hc2, hen2, msg, hrc2, heq⟩
            | ok tail => rw [htail] at h; exact Except.noConfusion h
      · rw [if_neg hen] at h
        obtain ⟨c2, hc2, hen2, msg, hrc2, heq⟩ := ih e h
        exact ⟨c2, List.mem_cons_of_mem _ hc2, hen2, msg, hrc2, heq⟩

lemma compileWhitelist_ok (rc : String → Except String Matcher) :
    ∀ (l : List String) (wl : List Matcher), compileWhitelist rc l = .ok wl →
      List.Forall₂ (fun m p => rc p = .ok m) wl l := by
  intro l
  induction l with
  | nil => intro wl h; cases h; exact List.Forall₂.nil
  | cons p rest ih =>
      intro wl h
      unfold compileWhitelist at h
      cases hrc : rc p with
      | error e => rw [hrc] at h; exact Except.noConfusion h
      | ok m =>
          rw [hrc] at h
          cases htail : compileWhitelist rc rest with
          | error e => rw [htail] at h; exact Except.noConfusion h
          | ok tail =>
              rw [htail] at h
              cases h
              exact List.Forall₂.cons hrc (ih tail htail)

lemma compileWhitelist_error (rc : String → Except String Matcher) :
    ∀ (l : List String) (e : String), compileWhitelist rc l = .error e →
      ∃ p ∈ l, ∃ msg, rc p = .error msg
        ∧ e = "Invalid whitelist pattern '" ++ p ++ "': " ++ msg := by
  intro l
  induction l with
  | nil => intro e h; exact Except.noConfusion h
  | cons p rest ih =>
      intro e h
      unfold compileWhitelist at h
      cases hrc : rc p with
      | error msg =>
          rw [hrc] at h
          cases h
          exact ⟨p, List.mem_cons_self _ _, msg, hrc, rfl⟩
      | ok m =>
          rw [hrc] at h
          cases htail : compileWhitelist rc rest with
          | error e2 =>
              rw [htail] at h
              cases h
              obtain ⟨p2, hp2, msg, hrc2, heq⟩ := ih _ htail
              exact ⟨p2, List.mem_cons_of_mem _ hp2, msg, hrc2, heq⟩
          | ok tail => rw [htail] at h; exact Except.noConfusion h

end PII

namespace PII

/-- C6: masking with an empty DetectionReport is the identity: for every
text, configuration (and external hash/token sources), `mask_pii` returns
the text unchanged (the source returns the borrowed input without
copying). -/
theorem c6_mask_empty_report_identity (sha : List Char → List Char)
    (tok : Nat → List Char) (t : List Char) (config : PIIConfig) :
    mask_pii sha tok t [] config = some t := rfl

/-- C3: partial masking is claimed to be total for every value and PII
type, falling back to a fully masked placeholder on degenerate inputs.
The code violates this: the bank-account branch guards `len >= 4` but
computes `value.len() - 6`, so the 4-character letter-containing value
`AB12` underflows `usize` subtraction and panics; and the SSN branch
byte-slices at `len - 4`, which on the 5-byte value `ααa` falls inside a
2-byte character and panics.  (Modelled: `none` is a panic.) -/
theorem c3_maskPartial_panics :
    maskPartial "AB12".toList .BankAccount = none
      ∧ maskPartial "ααa".toList .Ssn = none := by
  constructor
  · decide
  · decide

/-- C1: for every compiled pattern set and every text, assuming only that
raw matcher spans are well-formed (`start ≤ end`, as the regex engine
guarantees), the flattened list of all Detections returned by one
`detect_internal` call contains no two spans that overlap under the rule
of spec section 4.2. -/
theorem c1_detect_nonoverlap (cp : CompiledPatterns) (t : List Char)
    (hwf : ∀ p ∈ cp.patterns, ∀ m ∈ p.regex t, m.1 ≤ m.2) :
    List.Pairwise nonOverlapping (flattenReport (detect_internal cp t)) := by
  rw [detect_internal_eq_buildReport]
  have hcand : ∀ c ∈ candidatesOf cp t, c.s ≤ c.e :=
    candidatesOf_wf cp t (fun a b => a ≤ b) hwf
  have hres := foldl_stepT_pairwise cp.whitelist t (candidatesOf cp t) [] hcand
    (by simp) (by simp)
  have hsym : ∀ {x y : Detection}, nonOverlapping x y → nonOverlapping y x :=
    fun h => ⟨h.2, h.1⟩
  refine (List.Perm.pairwise_iff hsym (flatten_buildReport (detectTrace cp t))).mpr ?_
  rw [List.pairwise_map]
  exact hres.2

theorem c1_detect_nonoverlap_witness :
    (∀ p ∈ defaultPatterns.patterns, ∀ m ∈ p.regex "My SSN is 123-45-6789".toList,
        m.1 ≤ m.2)
      ∧ List.Pairwise nonOverlapping
          (flattenReport (detect_internal defaultPatterns "My SSN is 123-45-6789".toList)) :=
  ⟨by decide, c1_detect_nonoverlap defaultPatterns _ (by decide)⟩

/-- The external regex compiler queried by the counterexample
configuration: on its single custom pattern `a*` the regex crate yields
the greedy star matcher. -/
def rcStar : String → Except String Matcher := fun _ => .ok aStarMatcher

/-- C5 counterexample: the configuration `cfgStar` (custom pattern `a*`,
which compiles) produces, on the text `b`, detections with empty spans
(`start = end`), refuting `start < end` as claimed for every
configuration that compiles. -/
theorem c5_empty_span_counterexample :
    compile_patterns rcStar cfgStar = .ok cpStar
      ∧ ¬ (∀ d ∈ flattenReport (detect_internal cpStar "b".toList),
            d.start < d.end_ ∧ d.end_ ≤ "b".toList.length) := by
  constructor
  · rfl
  · decide

/-- C5 (amended): for every compiled pattern set and text, given the
regex-engine guarantee that raw match spans satisfy
`start ≤ end ≤ len(text)`, every Detection satisfies
`0 ≤ start ≤ end ≤ len(text)`; and `start < end` additionally holds
whenever no active pattern can match the empty string (strict raw
spans), in particular for all built-in patterns. -/
theorem c5_detect_spans_in_bounds (cp : CompiledPatterns) (t : List Char)
    (hwf : ∀ p ∈ cp.patterns, ∀ m ∈ p.regex t, m.1 ≤ m.2 ∧ m.2 ≤ t.length) :
    (∀ d ∈ flattenReport (detect_internal cp t), d.start ≤ d.end_ ∧ d.end_ ≤ t.length)
      ∧ ((∀ p ∈ cp.patterns, ∀ m ∈ p.regex t, m.1 < m.2) →
          ∀ d ∈ flattenReport (detect_internal cp t), d.start < d.end_) := by
  constructor
  · intro d hd
    rw [detect_internal_eq_buildReport] at hd
    have hd2 := (flatten_buildReport (detectTrace cp t)).mem_iff.mp hd
    rw [List.mem_map] at hd2
    obtain ⟨x, hx, rfl⟩ := hd2
    refine foldl_stepT_forall cp.whitelist t
      (fun x => x.det.start ≤ x.det.end_ ∧ x.det.end_ ≤ t.length)
      (candidatesOf cp t) [] (by simp) ?_ x hx
    intro acc c hc _ _
    exact candidatesOf_wf cp t (fun a b => a ≤ b ∧ b ≤ t.length) hwf c hc
  · intro hstrict d hd
    rw [detect_internal_eq_buildReport] at hd
    have hd2 := (flatten_buildReport (detectTrace cp t)).mem_iff.mp hd
    rw [List.mem_map] at hd2
    obtain ⟨x, hx, rfl⟩ := hd2
    refine foldl_stepT_forall cp.whitelist t
      (fun x => x.det.start < x.det.end_)
      (candidatesOf cp t) [] (by simp) ?_ x hx
    intro acc c hc _ _
    exact candidatesOf_wf cp t (fun a b => a < b) hstrict c hc

theorem c5_detect_spans_in_bounds_witness :
    (∀ p ∈ defaultPatterns.patterns, ∀ m ∈ p.regex "123456789".toList,
        m.1 ≤ m.2 ∧ m.2 ≤ "123456789".toList.length)
      ∧ (∀ d ∈ flattenReport (detect_internal defaultPatterns "123456789".toList),
          d.start ≤ d.end_ ∧ d.end_ ≤ "123456789".toList.length) :=
  ⟨by decide, (c5_detect_spans_in_bounds defaultPatterns _ (by decide)).1⟩

end PII

namespace PII

/-- C7: with whitelist pattern `test@example\.com` and email detection
enabled, the input `Email1: test@example.com, Email2: john@example.com`
yields exactly one email detection, `john@example.com` at bytes 34..50;
and in general every reported detection's exact matched substring is not
matched by any compiled whitelist expression (whitelisted raw matches are
suppressed). -/
theorem c7_whitelist_suppression :
    detect_internal cpEmailWhitelist
        "Email1: test@example.com, Email2: john@example.com".toList
      = [(.Email, [⟨"john@example.com".toList, 34, 50, .Partial⟩])]
    ∧ ∀ (cp : CompiledPatterns) (t : List Char),
        ∀ d ∈ flattenReport (detect_internal cp t),
          is_whitelisted cp.whitelist t d.start d.end_ = false := by
  constructor
  · decide
  · intro cp t d hd
    rw [detect_internal_eq_buildReport] at hd
    have hd2 := (flatten_buildReport (detectTrace cp t)).mem_iff.mp hd
    rw [List.mem_map] at hd2
    obtain ⟨x, hx, rfl⟩ := hd2
    refine foldl_stepT_forall cp.whitelist t
      (fun x => is_whitelisted cp.whitelist t x.det.start x.det.end_ = false)
      (candidatesOf cp t) [] (by simp) ?_ x hx
    intro acc c _ h1 _
    exact h1

theorem c7_whitelist_suppression_witness :
    ((⟨"john@example.com".toList, 34, 50, .Partial⟩ : Detection)
        ∈ flattenReport (detect_internal cpEmailWhitelist
            "Email1: test@example.com, Email2: john@example.com".toList))
      ∧ is_whitelisted cpEmailWhitelist.whitelist
          "Email1: test@example.com, Email2: john@example.com".toList 34 50 = false :=
  ⟨by decide,
    c7_whitelist_suppression.2 cpEmailWhitelist
      "Email1: test@example.com, Email2: john@example.com".toList
      ⟨"john@example.com".toList, 34, 50, .Partial⟩ (by decide)⟩

/-- C2: if patterns `i` and `j` (in compile order, `i < j`) both match the
same span of the text, then the detector never reports that span from
pattern `j` — the candidate of the later pattern is dropped, so an
accepted detection at that span can only come from an earlier pattern.
In particular, a bare 9-digit value with SSN and bank-account detection
enabled is reported as `ssn` (pattern 0) with no `bank_account` entry. -/
theorem c2_first_pattern_wins :
    (∀ (cp : CompiledPatterns) (t : List Char) (i j s e : Nat)
      (hij : i < j) (hj : j < cp.patterns.length),
      (s, e) ∈ (cp.patterns.get ⟨i, lt_trans hij hj⟩).regex t →
      (s, e) ∈ (cp.patterns.get ⟨j, hj⟩).regex t →
      ∀ x ∈ detectTrace cp t, x.idx = j → ¬ (x.det.start = s ∧ x.det.end_ = e))
    ∧ detect_internal cpSsnBank "123456789".toList
        = [(.Ssn, [⟨"123456789".toList, 0, 9, .Partial⟩])] := by
  constructor
  · intro cp t i j s e hij hj hi _ x hx hidx hse
    have hilen : i < cp.patterns.length := lt_trans hij hj
    have htlen : (cp.patterns.take j).length = j := by
      rw [List.length_take]
      omega
    have hitake : i < (cp.patterns.take j).length := by omega
    -- split the candidate list at pattern index j
    have hsplit : cp.patterns = cp.patterns.take j ++ cp.patterns.drop j :=
      (List.take_append_drop j cp.patterns).symm
    have hC : candidatesOf cp t
        = (enumFrom 0 (cp.patterns.take j)).flatMap
            (fun ip => (ip.2.regex t).map
              (fun m => (⟨ip.1, ip.2.pii_type, ip.2.mask_strategy, m.1, m.2⟩ : Cand)))
          ++ (enumFrom j (cp.patterns.drop j)).flatMap
            (fun ip => (ip.2.regex t).map
              (fun m => (⟨ip.1, ip.2.pii_type, ip.2.mask_strategy, m.1, m.2⟩ : Cand))) := by
      unfold candidatesOf
      conv_lhs => rw [hsplit]
      rw [enumFrom_append, List.flatMap_append, htlen, Nat.zero_add]
    have hTr : detectTrace cp t
        = ((enumFrom j (cp.patterns.drop j)).flatMap
            (fun ip => (ip.2.regex t).map
              (fun m => (⟨ip.1, ip.2.pii_type, ip.2.mask_strategy, m.1, m.2⟩ : Cand)))).foldl
            (stepT cp.whitelist t)
            (((enumFrom 0 (cp.patterns.take j)).flatMap
              (fun ip => (ip.2.regex t).map
                (fun m => (⟨ip.1, ip.2.pii_type, ip.2.mask_strategy, m.1, m.2⟩ : Cand)))).foldl
              (stepT cp.whitelist t) []) := by
      unfold detectTrace
      rw [hC, List.foldl_append]
    -- the candidate of pattern i for span (s, e) sits in the first block
    have hgetTake : (cp.patterns.take j).get ⟨i, hitake⟩
        = cp.patterns.get ⟨i, hilen⟩ := by
      rw [List.get_eq_getElem, List.get_eq_getElem, List.getElem_take]
    have hciA : (⟨i, (cp.patterns.get ⟨i, hilen⟩).pii_type,
        (cp.patterns.get ⟨i, hilen⟩).mask_strategy, s, e⟩ : Cand)
        ∈ (enumFrom 0 (cp.patterns.take j)).flatMap
            (fun ip => (ip.2.regex t).map
              (fun m => (⟨ip.1, ip.2.pii_type, ip.2.mask_strategy, m.1, m.2⟩ : Cand))) := by
      rw [List.mem_flatMap]
      refine ⟨(i, cp.patterns.get ⟨i, hilen⟩), ?_, ?_⟩
      · have := enumFrom_mem_get (cp.patterns.take j) 0 i hitake
        rw [Nat.zero_add, hgetTake] at this
        exact this
      · rw [List.mem_map]
        exact ⟨(s, e), hi, rfl⟩
    -- after the first block the span is blocked
    have hblocked : blockedSpan cp.whitelist t
        (((enumFrom 0 (cp.patterns.take j)).flatMap
          (fun ip => (ip.2.regex t).map
            (fun m => (⟨ip.1, ip.2.pii_type, ip.2.mask_strategy, m.1, m.2⟩ : Cand)))).foldl
          (stepT cp.whitelist t) []) s e :=
      blockedSpan_of_processed _ [] _ hciA rfl rfl
    rw [hTr] at hx
    rcases blockedSpan_no_new _ _ hblocked x hx with hmem | hne
    · -- x was accepted within the first block, so its pattern index is < j
      have hidxlt : x.idx < j := by
        refine foldl_stepT_forall cp.whitelist t (fun y => y.idx < j) _ []
          (by simp) ?_ x hmem
        intro acc c hc _ _
        rw [List.mem_flatMap] at hc
        obtain ⟨ip, hip, hc⟩ := hc
        rw [List.mem_map] at hc
        obtain ⟨m, _, rfl⟩ := hc
        have := enumFrom_mem_bounds _ 0 ip hip
        rw [htlen] at this
        simp only
        omega
      omega
    · exact hne hse
  · decide

theorem c2_first_pattern_wins_witness :
    ((0 : Nat) < 11 ∧ 11 < defaultPatterns.patterns.length)
      ∧ ((0, 9) ∈ (defaultPatterns.patterns.get
            ⟨0, by decide⟩).regex "123456789".toList)
      ∧ ((0, 9) ∈ (defaultPatterns.patterns.get
            ⟨11, by decide⟩).regex "123456789".toList)
      ∧ ∀ x ∈ detectTrace defaultPatterns "123456789".toList,
          x.idx = 11 → ¬ (x.det.start = 0 ∧ x.det.end_ = 9) := by
  refine ⟨⟨by decide, by decide⟩, by decide, by decide, ?_⟩
  exact c2_first_pattern_wins.1 defaultPatterns "123456789".toList 0 11 0 9
    (by decide) (by decide) (by decide) (by decide)

end PII

namespace PII

/-- C4: evaluation of the engine at the round-trip input.  The claim (and
the repository's own `test_multiple_pii_types` integration test) expects a
phone detection for `555-1234`, but the US phone pattern requires ten
digits, so the detector reports only `ssn` and `email`, and masking
leaves `555-1234` in the output: the exact masked text is
`SSN: ***-**-6789, Email: j***n@example.com, Phone: 555-1234` rather
than the claimed `... Phone: ***-***-1234`. -/
theorem c4_roundtrip_actual_behavior :
    detect_internal defaultPatterns
        "SSN: 123-45-6789, Email: john@example.com, Phone: 555-1234".toList
      = [(.Ssn, [⟨"123-45-6789".toList, 5, 16, .Partial⟩]),
         (.Email, [⟨"john@example.com".toList, 25, 41, .Partial⟩])]
    ∧ (∀ l, (PIIType.Phone, l) ∉ detect_internal defaultPatterns
        "SSN: 123-45-6789, Email: john@example.com, Phone: 555-1234".toList)
    ∧ mask_pii (fun _ => []) (fun _ => [])
        "SSN: 123-45-6789, Email: john@example.com, Phone: 555-1234".toList
        [(.Ssn, [⟨"123-45-6789".toList, 5, 16, .Partial⟩]),
         (.Email, [⟨"john@example.com".toList, 25, 41, .Partial⟩])]
        PIIConfig.default
      = some "SSN: ***-**-6789, Email: j***n@example.com, Phone: 555-1234".toList := by
  refine ⟨by decide, ?_, by decide⟩
  intro l hl
  have h : detect_internal defaultPatterns
      "SSN: 123-45-6789, Email: john@example.com, Phone: 555-1234".toList
      = [(.Ssn, [⟨"123-45-6789".toList, 5, 16, .Partial⟩]),
         (.Email, [⟨"john@example.com".toList, 25, 41, .Partial⟩])] := by decide
  rw [h] at hl
  rcases List.mem_cons.mp hl with heq | hl
  · exact PIIType.noConfusion (congrArg Prod.fst heq)
  · rcases List.mem_cons.mp hl with heq | hl
    · exact PIIType.noConfusion (congrArg Prod.fst heq)
    · simp at hl

/-- C10: the configured `default_mask_strategy` has no effect on engine
behavior: changing only this field leaves pattern compilation, hence the
detect report of the compiled set, and the masked output of `mask_pii`
identical; each detection carries its pattern's own strategy and the
default is never read after parsing. -/
theorem c10_default_strategy_no_effect (cfg : PIIConfig) (s : MaskingStrategy) :
    (∀ rc, compile_patterns rc { cfg with default_mask_strategy := s }
        = compile_patterns rc cfg)
    ∧ (∀ rc (t : List Char),
        (compile_patterns rc { cfg with default_mask_strategy := s }).map
            (fun cp => detect_internal cp t)
          = (compile_patterns rc cfg).map (fun cp => detect_internal cp t))
    ∧ (∀ (sha : List Char → List Char) (tok : Nat → List Char) (t : List Char)
        (r : Report),
        mask_pii sha tok t r { cfg with default_mask_strategy := s }
          = mask_pii sha tok t r cfg) := by
  cases cfg
  exact ⟨fun _ => rfl, fun _ _ => rfl, fun _ _ _ _ => rfl⟩

end PII

namespace PII

/-- What a successfully compiled custom pattern contains: type `custom`,
the caller's strategy and description, and the matcher produced by the
external regex compiler on the caller's pattern text. -/
def customCompiledRel (rc : String → Except String Matcher)
    (cp : CompiledPattern) (c : CustomPattern) : Prop :=
  cp.pii_type = .Custom ∧ cp.mask_strategy = c.mask_strategy
    ∧ cp.description = c.description ∧ rc c.pattern = .ok cp.regex

/-- C8: pattern compilation is all-or-nothing.  On success the compiled
set consists of exactly the built-in patterns of the enabled categories
(in fixed order, none of a disabled category) followed by every enabled
custom pattern, with the whitelist fully compiled; on failure the error
message names the offending custom or whitelist pattern and no partial
result exists; and a configuration with every category disabled and no
custom patterns compiles successfully to an empty pattern set whose
pre-filter matches nothing (every detect call returns the empty
report). -/
theorem c8_compile_all_or_nothing :
    (∀ rc cfg res, compile_patterns rc cfg = .ok res →
      (∃ cs, res.patterns = builtinPatterns cfg ++ cs
        ∧ List.Forall₂ (customCompiledRel rc) cs
            (cfg.custom_patterns.filter (fun c => c.enabled)))
      ∧ List.Forall₂ (fun m p => rc p = .ok m) res.whitelist cfg.whitelist_patterns)
    ∧ (∀ rc cfg e, compile_patterns rc cfg = .error e →
        (∃ c ∈ cfg.custom_patterns, c.enabled = true ∧ ∃ msg, rc c.pattern = .error msg
          ∧ e = "Failed to compile custom pattern '" ++ c.pattern ++ "': " ++ msg)
        ∨ (∃ p ∈ cfg.whitelist_patterns, ∃ msg, rc p = .error msg
            ∧ e = "Invalid whitelist pattern '" ++ p ++ "': " ++ msg))
    ∧ (∀ rc strat rt b1 b2 b3 wlp wl, compileWhitelist rc wlp = .ok wl →
        compile_patterns rc
            ⟨false, false, false, false, false, false, false, false, false, false,
              false, false, strat, rt, b1, b2, b3, [], wlp⟩
          = .ok ⟨[], wl⟩
        ∧ ∀ t : List Char, detect_internal ⟨[], wl⟩ t = []) := by
  refine ⟨?_, ?_, ?_⟩
  · intro rc cfg res h
    unfold compile_patterns at h
    cases hc : compileCustoms rc cfg.custom_patterns with
    | error e => rw [hc] at h; exact Except.noConfusion h
    | ok customs =>
        rw [hc] at h
        cases hw : compileWhitelist rc cfg.whitelist_patterns with
        | error e => rw [hw] at h; exact Except.noConfusion h
        | ok wl =>
            rw [hw] at h
            cases h
            exact ⟨⟨customs, rfl, compileCustoms_ok rc _ _ hc⟩,
              compileWhitelist_ok rc _ _ hw⟩
  · intro rc cfg e h
    unfold compile_patterns at h
    cases hc : compileCustoms rc cfg.custom_patterns with
    | error e0 =>
        rw [hc] at h
        cases h
        exact Or.inl (compileCustoms_error rc _ _ hc)
    | ok customs =>
        rw [hc] at h
        cases hw : compileWhitelist rc cfg.whitelist_patterns with
        | error e0 =>
            rw [hw] at h
            cases h
            exact Or.inr (compileWhitelist_error rc _ _ hw)
        | ok wl => rw [hw] at h; exact Except.noConfusion h
  · intro rc strat rt b1 b2 b3 wlp wl hwl
    constructor
    · have hred : compile_patterns rc
          ⟨false, false, false, false, false, false, false, false, false, false,
            false, false, strat, rt, b1, b2, b3, [], wlp⟩
          = match compileWhitelist rc wlp with
            | .error e => .error e
            | .ok wl => .ok ⟨[], wl⟩ := rfl
      rw [hred, hwl]
    · intro t; rfl

def rcW : String → Except String Matcher :=
  fun s => if s = "(" then .error "unclosed group" else .ok (fun _ => [])

def cfgW : PIIConfig :=
  { PIIConfig.default with
    custom_patterns := [⟨"x", "literal x", .Hash, true⟩],
    whitelist_patterns := ["y"] }

def resW : CompiledPatterns :=
  ⟨builtinPatterns cfgW ++ [⟨.Custom, (fun _ => []), .Hash, "literal x"⟩],
   [(fun _ => [])]⟩

def cfgE : PIIConfig :=
  { PIIConfig.default with custom_patterns := [⟨"(", "bad", .Redact, true⟩] }

theorem c8_compile_all_or_nothing_witness :
    ((∃ cs, resW.patterns = builtinPatterns cfgW ++ cs
        ∧ List.Forall₂ (customCompiledRel rcW) cs
            (cfgW.custom_patterns.filter (fun c => c.enabled)))
      ∧ List.Forall₂ (fun m p => rcW p = .ok m) resW.whitelist cfgW.whitelist_patterns)
    ∧ ((∃ c ∈ cfgE.custom_patterns, c.enabled = true
          ∧ ∃ msg, rcW c.pattern = .error msg
          ∧ "Failed to compile custom pattern '(': unclosed group"
              = "Failed to compile custom pattern '" ++ c.pattern ++ "': " ++ msg)
        ∨ (∃ p ∈ cfgE.whitelist_patterns, ∃ msg, rcW p = .error msg
            ∧ "Failed to compile custom pattern '(': unclosed group"
                = "Invalid whitelist pattern '" ++ p ++ "': " ++ msg))
    ∧ (compile_patterns rcW
          ⟨false, false, false, false, false, false, false, false, false, false,
            false, false, .Redact, "[REDACTED]", false, true, true, [], ["y"]⟩
        = .ok ⟨[], [(fun _ => [])]⟩
      ∧ ∀ t : List Char, detect_internal ⟨[], [(fun _ => [])]⟩ t = []) :=
  ⟨c8_compile_all_or_nothing.1 rcW cfgW resW rfl,
   c8_compile_all_or_nothing.2.1 rcW cfgE
     "Failed to compile custom pattern '(': unclosed group" rfl,
   c8_compile_all_or_nothing.2.2 rcW .Redact "[REDACTED]" false true true
     ["y"] [(fun _ => [])] rfl⟩

end PII

namespace PII

/-- C9: rewriting the nested mapping
`{"user": {"ssn": "123-45-6789", "name": "John Doe"}}` with SSN detection
enabled returns `changed = true`, a new mapping whose `user.ssn` value is
the partial mask `***-**-6789` and whose `user.name` is unchanged, and a
merged report with exactly one `ssn` entry (the detection found at path
`user.ssn`; the path string itself is diagnostic only and does not appear
in the report). -/
theorem c9_process_nested_merge (sha : List Char → List Char) (tok : Nat → List Char) :
    process_nested cpSsnOnly cfgSsnOnly sha tok
      (.dict [("user", .dict [("ssn", .str "123-45-6789"), ("name", .str "John Doe")])]) ""
    = some (true,
        .dict [("user", .dict [("ssn", .str "***-**-6789"), ("name", .str "John Doe")])],
        [(.Ssn, [⟨"123-45-6789".toList, 0, 11, .Partial⟩])]) := by
  have h1 : detect_internal cpSsnOnly "123-45-6789".toList
      = [(.Ssn, [⟨"123-45-6789".toList, 0, 11, .Partial⟩])] := by decide
  have h2 : detect_internal cpSsnOnly "John Doe".toList = [] := by decide
  have h3 : mask_pii sha tok "123-45-6789".toList
      [(.Ssn, [⟨"123-45-6789".toList, 0, 11, .Partial⟩])] cfgSsnOnly
      = some "***-**-6789".toList := rfl
  have h4 : ("***-**-6789".toList).asString = "***-**-6789" := by decide
  simp at h1 h2 h3 h4
  simp [process_nested, processEntries, h1, h2, h3, h4, mergeReport, pushList]

end PII
